import Mathlib

/-!
Verification of the policy-document pipeline: the sentence chunker
(pdf_parser.chunk_document), the multi-query retriever (retriever.py)
and the answer normalizer (agent.py / answer_chain.py).

The Python code is shallowly embedded.  External collaborators are kept
abstract: the tokenizer (tiktoken) is a parameter `tok : String → Nat`
(the code only ever uses `len(enc.encode(s))`), and the JSON decoder
(Python's `json.loads`) is a parameter `parse : String → Option JVal`.
All character-level string operations of the Python code (strip, lower,
substring test, regex splits used by the code) are implemented
explicitly on `List Char`, matching CPython's behaviour on ASCII input.
-/

/-- One chunk produced by `chunk_document`.  `startSent`/`endSent` are the
loop variables `start_sent_idx` and the cursor value at chunk close (the
half-open sentence-index range of the chunk); `charStart`/`charEnd` mirror
`char_start_approx`/`char_end_approx`.  The page range and section title of
the Python `Chunk` are functions of separate page-map inputs and do not
influence chunk boundaries; they are not modelled. -/
structure SChunk where
  idx : Nat
  text : String
  tokenCount : Nat
  startSent : Nat
  endSent : Nat
  charStart : Nat
  charEnd : Nat
deriving Repr, DecidableEq, Inhabited

/-- Python `" ".join(parts)`. -/
def strJoin (sep : String) : List String → String
  | [] => ""
  | [a] => a
  | a :: b :: rest => a ++ sep ++ strJoin sep (b :: rest)

/-- The inner accumulation loop of `chunk_document` (lines 353-356):
starting from running total `acc`, how many leading sentences of the
remaining token list fit while the total stays at or under `target`. -/
def accumLen (target : Nat) : Nat → List Nat → Nat
  | _, [] => 0
  | acc, t :: ts => if acc + t ≤ target then accumLen target (acc + t) ts + 1 else 0

/-- The rewind loop of `chunk_document` (lines 395-401): walking the
just-closed chunk's token counts from its last sentence backwards (the
list given here is the chunk's token slice reversed), count sentences
taken while the rewound total is still `< overlap`. -/
def rewindSteps (overlap : Nat) : Nat → List Nat → Nat
  | _, [] => 0
  | acc, t :: ts => if acc < overlap then rewindSteps overlap (acc + t) ts + 1 else 0

/-- The cursor value when the chunk that started at sentence `i` closes:
the greedy accumulation end, or `i + 1` when even the single sentence at
`i` exceeds the target (lines 360-363: it is emitted alone). -/
def accEnd (toks : List Nat) (target i : Nat) : Nat :=
  if accumLen target 0 (toks.drop i) = 0 then i + 1
  else i + accumLen target 0 (toks.drop i)

/-- Token counts of sentences `i ≤ j < e`. -/
def chunkSlice (toks : List Nat) (i e : Nat) : List Nat :=
  (toks.drop i).take (e - i)

/-- Total token count over sentence indices `s ≤ j < e`. -/
def sharedTok (toks : List Nat) (s e : Nat) : Nat :=
  (chunkSlice toks s e).sum

/-- The next chunk's start sentence after the overlap rewind (line 403):
`i = max(i - rewind_count, start_sent_idx + 1)`. -/
def nextStart (toks : List Nat) (overlap i e : Nat) : Nat :=
  max (e - rewindSteps overlap 0 (chunkSlice toks i e).reverse) (i + 1)

/-- `char_start_approx` (line 371): cumulative `len(sentences[j]) + 1`
over all sentences before the chunk's start. -/
def cumLen (sents : List String) (i : Nat) : Nat :=
  ((sents.take i).map (fun s => s.length + 1)).sum

/-- The chunk record built at lines 368-391 for the chunk that starts at
sentence `i`: text is the space-join of its sentences, `token_count` the
accumulated token total, and the character offsets follow
`char_start_approx`/`char_end_approx`. -/
def mkChunk (sents : List String) (toks : List Nat) (target i cidx : Nat) : SChunk :=
  ⟨cidx + 1,
   strJoin (" ") ((sents.drop i).take (accEnd toks target i - i)),
   (chunkSlice toks i (accEnd toks target i)).sum,
   i,
   accEnd toks target i,
   cumLen sents i,
   cumLen sents i + (strJoin (" ") ((sents.drop i).take (accEnd toks target i - i))).length⟩

/-- The main `while i < len(sentences)` loop of `chunk_document`
(lines 347-403).  After closing a chunk the cursor becomes
`nextStart` when more sentences remain, else the accumulation end.
`fuel` bounds the iteration count; since every iteration advances the
cursor by at least one sentence (proved below), `fuel = sentences.length`
never runs out. -/
def chunk_loop (sents : List String) (toks : List Nat) (target overlap : Nat) :
    Nat → Nat → Nat → List SChunk
  | 0, _, _ => []
  | fuel + 1, i, cidx =>
    if i < sents.length then
      mkChunk sents toks target i cidx ::
        chunk_loop sents toks target overlap fuel
          (if accEnd toks target i < sents.length then nextStart toks overlap i (accEnd toks target i)
           else accEnd toks target i)
          (cidx + 1)
    else []

/-- `chunk_document` restricted to its chunk-assembly core: the sentence
list is the output of `_split_sentences`, `tok s` models
`len(enc.encode(s))`, and `sent_tokens` is precomputed as in line 342.
Defaults in the source: `target = TARGET_TOKENS = 800`,
`overlap = OVERLAP_TOKENS = 100`. -/
def chunk_document (tok : String → Nat) (sentences : List String)
    (target overlap : Nat) : List SChunk :=
  chunk_loop sentences (sentences.map tok) target overlap sentences.length 0 0

/-! ## Character-level helpers

Explicit `List Char` implementations of the CPython string operations the
embedded code uses (`strip`, `lower`, substring membership, and the two
regular expressions of `agent.py`).  They agree with CPython on ASCII
input; Python's full Unicode behaviour is out of scope of the claims. -/

/-- Python `str.strip()` on the character list. -/
def pyStripList (cs : List Char) : List Char :=
  ((cs.dropWhile Char.isWhitespace).reverse.dropWhile Char.isWhitespace).reverse

/-- Python `str.strip()`. -/
def pyStrip (s : String) : String :=
  String.mk (pyStripList s.toList)

/-- Python `str.lower()` (ASCII). -/
def pyLower (s : String) : String :=
  String.mk (s.toList.map Char.toLower)

/-- Python `str.capitalize()` (ASCII): first character upper-cased, the
rest lower-cased. -/
def pyCapitalize (s : String) : String :=
  match s.toList with
  | [] => ""
  | c :: rest => String.mk (c.toUpper :: rest.map Char.toLower)

/-- Does `hay` start with `needle`? -/
def matchesAt : List Char → List Char → Bool
  | [], _ => true
  | _ :: _, [] => false
  | a :: as, b :: bs => a == b && matchesAt as bs

/-- Python `needle in hay` substring membership on character lists. -/
def containsSeq : List Char → List Char → Bool
  | needle, [] => needle.isEmpty
  | needle, b :: t => matchesAt needle (b :: t) || containsSeq needle t

/-- Python `needle in hay` on strings. -/
def substrOf (needle hay : String) : Bool :=
  containsSeq needle.toList hay.toList

/-- Python `s.startswith(p)`. -/
def pyStarts (s p : String) : Bool :=
  matchesAt p.toList s.toList

/-- Python `s[:n]`. -/
def strTake (s : String) (n : Nat) : String :=
  String.mk (s.toList.take n)

/-- Python `len(s)`. -/
def strLen (s : String) : Nat :=
  s.toList.length

/-- Digits to the natural number they denote. -/
def digitsToNat (ds : List Char) : Nat :=
  ds.foldl (fun a c => a * 10 + (c.toNat - 48)) 0

/-! ## Retrieval engine (`retriever.py`) -/

/-- `_heuristic_expand` (lines 142-152): the deterministic fallback
expansion, truncated to `n`. -/
def heuristic_expand (question : String) (n : Nat) : List String :=
  ([question,
    "coverage policy benefits " ++ question,
    "exclusions waiting period sub-limit " ++ question]).take n

/-- The fence-stripping of `expand_query` lines 122-127:
`split("\n", 1)[-1]` keeps the part after the first newline (the whole
string when there is none). -/
def afterFirstNewline (s : String) : String :=
  if s.toList.contains '\n' then String.mk ((s.toList.dropWhile (fun c => !(c == '\n'))).drop 1)
  else s

/-- Python `s.endswith(p)`. -/
def pyEnds (s p : String) : Bool :=
  matchesAt p.toList.reverse s.toList.reverse

/-- Python `s[:-n]` style removal of the last `n` characters. -/
def strDropRight (s : String) (n : Nat) : String :=
  String.mk (s.toList.take (s.toList.length - n))

/-- `expand_query`'s cleaning of the raw generation-service output
(lines 122-127): strip, drop a leading fence line
(`split` at the first newline keeps the whole string when there is
none), drop a trailing fence (on a string that ends with the fence,
Python's right-split at the last fence occurrence keeps everything
before it, i.e. removes exactly the last three characters), strip
again. -/
def cleanExpand (raw : String) : String :=
  let c0 := pyStrip raw
  let c1 := if pyStarts c0 ("```") then afterFirstNewline c0 else c0
  let c2 := if pyEnds c1 ("```") then strDropRight c1 3 else c1
  pyStrip c2

/-- A parsed JSON value, the result type of the abstract `json.loads`
collaborator (Python maps JSON objects to `dict`, arrays to `list`,
numbers to `int`/`float` — collapsed here into one numeric field since
the embedded code treats them uniformly). -/
inductive JVal where
  | str : String → JVal
  | num : ℚ → JVal
  | bool : Bool → JVal
  | null : JVal
  | arr : List JVal → JVal
  | obj : List (String × JVal) → JVal
deriving Repr

/-- Python `dict.get(k)` on the association list of a parsed object
(`json.loads` produces unique keys, the last duplicate winning; the
abstract parser is assumed to emit such canonical objects). -/
def jGet (kvs : List (String × JVal)) (k : String) : Option JVal :=
  (kvs.find? (fun kv => kv.1 == k)).map (fun kv => kv.2)

/-- Rendering of a rational in `str()` output.  Python renders floats in
decimal; this printer is only a stand-in (no theorem depends on it). -/
def ratRender (q : ℚ) : String :=
  (if q.den = 1 then toString q.num else toString q.num ++ "/" ++ toString q.den)

/-- Python `str(v)` on a parsed JSON value.  Exact on strings, booleans
and `None`; numeric and container rendering is approximate and unused by
any theorem.  `fuel` bounds recursion depth (any bound at least the
value's depth gives the same result). -/
def pyStrFuel : Nat → JVal → String
  | _, JVal.str s => s
  | _, JVal.bool b => if b then "True" else "False"
  | _, JVal.null => "None"
  | _, JVal.num q => ratRender q
  | 0, _ => ""
  | f + 1, JVal.arr vs => "[" ++ strJoin (", ") (vs.map (pyStrFuel f)) ++ "]"
  | f + 1, JVal.obj kvs =>
      "\x7b" ++ strJoin (", ") (kvs.map (fun kv => kv.1 ++ ": " ++ pyStrFuel f kv.2)) ++ "\x7d"

mutual

/-- Nesting depth of a parsed JSON value. -/
def jDepth : JVal → Nat
  | JVal.arr vs => jDepthList vs + 1
  | JVal.obj kvs => jDepthObj kvs + 1
  | _ => 1

/-- Maximal depth over a list of values. -/
def jDepthList : List JVal → Nat
  | [] => 0
  | v :: vs => max (jDepth v) (jDepthList vs)

/-- Maximal depth over the values of an object. -/
def jDepthObj : List (String × JVal) → Nat
  | [] => 0
  | kv :: kvs => max (jDepth kv.2) (jDepthObj kvs)

end

/-- Python `str(v)` with sufficient fuel (the depth bounds the
recursion). -/
def pyStr (v : JVal) : String :=
  pyStrFuel (jDepth v) v

/-- `expand_query` (lines 100-139).  The generation-service call is a
parameter: `Except.error` models any raised exception (network error,
timeout, HTTP error status), `Except.ok raw` the returned text; `parse`
models `json.loads` (`none` = `JSONDecodeError`, which the `except`
arm also turns into the heuristic fallback).  A parsed non-list, or a
list with fewer than one element, likewise falls back; otherwise the
first `n` elements are stringified. -/
def expand_query (call : Except Unit String) (parse : String → Option JVal)
    (question : String) (n : Nat) : List String :=
  match call with
  | Except.error _ => heuristic_expand question n
  | Except.ok raw =>
    match parse (cleanExpand raw) with
    | some (JVal.arr vs) =>
        if 1 ≤ vs.length then (vs.take n).map pyStr else heuristic_expand question n
    | _ => heuristic_expand question n

/-- The executed query set of `MultiQueryRetriever.retrieve` (line 200):
`[question] + [v for v in variants if v.lower() != question.lower()]`. -/
def all_queries (question : String) (variants : List String) : List String :=
  question :: variants.filter (fun v => pyLower v ≠ pyLower question)

/-- One retrieved hit.  The Python dict also carries a metadata mapping
which the merge logic passes through untouched exactly like `text`;
`score` is the similarity (`1 - cosine_distance`), modelled as a
rational since the code only ever compares scores. -/
structure Hit where
  chunkId : String
  score : ℚ
  text : String
deriving DecidableEq

/-- One step of the dedup loop of `retrieve` (lines 219-223): a new hit
replaces the stored hit of the same `chunk_id` only when its score is
strictly higher; an unseen `chunk_id` is appended (Python dicts preserve
insertion order, and updating a value keeps the key's position). -/
def insert_hit (acc : List Hit) (h : Hit) : List Hit :=
  if acc.any (fun x => x.chunkId == h.chunkId) then
    acc.map (fun x => if x.chunkId = h.chunkId ∧ x.score < h.score then h else x)
  else acc ++ [h]

/-- `best_by_id` of `retrieve` (lines 219-223) as an insertion-ordered
association list. -/
def best_by_id (hits : List Hit) : List Hit :=
  hits.foldl insert_hit []

/-- The sort order of line 226: score descending. -/
def scoreGe (a b : Hit) : Prop :=
  b.score ≤ a.score

instance : DecidableRel scoreGe :=
  fun a b => inferInstanceAs (Decidable (b.score ≤ a.score))

instance : IsTotal Hit scoreGe :=
  ⟨fun a b => le_total b.score a.score⟩

instance : IsTrans Hit scoreGe :=
  ⟨fun _ _ _ h1 h2 => le_trans h2 h1⟩

/-- Lines 226-227: sort the deduplicated hits by score descending
(Python's `sorted` is stable; `insertionSort` with `scoreGe` places
earlier elements first on ties, matching it) and truncate to
`final_top_k` (default `FINAL_TOP_K = 10`). -/
def top_results (hits : List Hit) (finalTopK : Nat) : List Hit :=
  (List.insertionSort scoreGe (best_by_id hits)).take finalTopK

/-- The dedup example of the spec (and of `_offline_test`, lines
321-326). -/
def exHits : List Hit :=
  [⟨"a", 0.8, "t1"⟩, ⟨"b", 0.7, "t2"⟩, ⟨"a", 0.9, "t1"⟩, ⟨"c", 0.6, "t3"⟩]

/-! ## Answer normalizer (`agent.py`, with the `answer_chain.py`
confidence variant) -/

/-- Python `s[n:]`. -/
def strDrop (s : String) (n : Nat) : String :=
  String.mk (s.toList.drop n)

/-- A word character of the regex `\w` (ASCII). -/
def isWordChar (c : Char) : Bool :=
  c.isAlphanum || c == '_'

/-- Collect maximal runs of word characters (`acc` is the current run,
reversed). -/
def tokenRunsAux : List Char → List Char → List String
  | run, [] => if run.isEmpty then [] else [String.mk run.reverse]
  | run, c :: cs =>
    if isWordChar c then tokenRunsAux (c :: run) cs
    else if run.isEmpty then tokenRunsAux [] cs
    else String.mk run.reverse :: tokenRunsAux [] cs

/-- All maximal word-character runs of a character list. -/
def tokenRuns (cs : List Char) : List String :=
  tokenRunsAux [] cs

/-- `re.findall(r"\w{3,}", s.lower())` of `_best_sentence` (lines
342, 349): maximal word-character runs of the lower-cased text, of
length at least 3. -/
def wordsOf (s : String) : List String :=
  (tokenRuns (pyLower s).toList).filter (fun w => decide (3 ≤ strLen w))

/-- `re.split(r"(?<=[.;])\s+", text)` of `_best_sentence` (line 343):
split at maximal whitespace runs immediately preceded by `.` or `;`
(the run is consumed).  First argument: are we inside such a
separator run; second: current segment, reversed. -/
def splitSentAux : Bool → List Char → List Char → List String
  | _, acc, [] => [String.mk acc.reverse]
  | true, acc, c :: cs =>
    if c.isWhitespace then splitSentAux true acc cs
    else splitSentAux false (c :: acc) cs
  | false, acc, c :: cs =>
    if c.isWhitespace ∧ (acc.head? = some '.' ∨ acc.head? = some ';') then
      String.mk acc.reverse :: splitSentAux true [] cs
    else splitSentAux false (c :: acc) cs

/-- The sentence split used by `_best_sentence`. -/
def splitSent (text : String) : List String :=
  splitSentAux false [] text.toList

/-- `scored.sort(key=lambda x: -x[0]); scored[0]` (lines 352-354):
Python's sort is stable, so the result is the earliest entry attaining
the maximal score.  A later entry wins only with a strictly greater
score. -/
def argmaxFirst : List (Nat × String) → Option (Nat × String)
  | [] => none
  | x :: xs =>
    match argmaxFirst xs with
    | none => some x
    | some y => if x.1 < y.1 then some y else some x

/-- `_best_sentence(text, question)` (lines 340-358): among the
stripped split sentences of length at least 20, pick the first with the
most distinct question words (words = lower-cased word-character runs of
length at least 3); if none qualifies, the first sentence whose strip
has length at least 30, stripped; failing that, the first 300
characters of the text. -/
def best_sentence (text question : String) : String :=
  let qWords := (wordsOf question).dedup
  let sentences := splitSent text
  let scored := sentences.filterMap (fun s =>
    let t := pyStrip s
    if strLen t < 20 then none
    else some ((qWords.filter (fun w => (wordsOf t).contains w)).length, t))
  match argmaxFirst scored with
  | some p => p.2
  | none =>
    match sentences.find? (fun s => decide (30 ≤ strLen (pyStrip s))) with
    | some s => pyStrip s
    | none => strTake text 300

/-- A citation of the validated verdict (`file`, `page`, `section`,
`quote`; the `section` key is rendered as `sectionTitle` since `section`
is reserved in Lean). -/
structure Citation where
  file : String
  page : Int
  sectionTitle : String
  quote : String
deriving Repr, DecidableEq, Inhabited

/-- A retrieved chunk as seen by `_backfill_citations`: its text plus
the metadata fields the backfill reads (`filename`, `page_number`,
`page_end`, `section_title`, all present on chunks produced by the
segmenter). -/
structure RChunk where
  text : String
  filename : String
  pageNumber : Int
  pageEnd : Int
  sectionTitle : String
deriving Repr, DecidableEq, Inhabited

/-- The exact match of `_backfill_citations` lines 378-383: the
citation's file name is a (lower-cased) substring of the chunk's file
name and the citation's page lies in the chunk's page range. -/
def exact_match (cit : Citation) (ch : RChunk) : Bool :=
  substrOf (pyLower cit.file) (pyLower ch.filename)
    && decide (ch.pageNumber ≤ cit.page) && decide (cit.page ≤ ch.pageEnd)

/-- The loose match of lines 385-389: file-name substring only. -/
def loose_match (cit : Citation) (ch : RChunk) : Bool :=
  substrOf (pyLower cit.file) (pyLower ch.filename)

/-- The per-citation body of the backfill loop (lines 372-389): a
citation whose quote is non-empty after stripping is untouched;
otherwise the quote is filled from the first exactly-matching chunk,
and, if still blank, from the first loosely-matching chunk. -/
def backfill_one (chunks : List RChunk) (question : String) (cit : Citation) : Citation :=
  if pyStrip cit.quote ≠ "" then cit
  else
    match chunks.find? (exact_match cit) with
    | some ch =>
      if pyStrip (best_sentence ch.text question) ≠ "" then
        ⟨cit.file, cit.page, cit.sectionTitle, best_sentence ch.text question⟩
      else
        match chunks.find? (loose_match cit) with
        | some ch2 => ⟨cit.file, cit.page, cit.sectionTitle, best_sentence ch2.text question⟩
        | none => ⟨cit.file, cit.page, cit.sectionTitle, best_sentence ch.text question⟩
    | none =>
      match chunks.find? (loose_match cit) with
      | some ch2 => ⟨cit.file, cit.page, cit.sectionTitle, best_sentence ch2.text question⟩
      | none => cit

/-- `_backfill_citations(citations, chunks, question)` (lines 361-405):
backfill each citation, then, when there were no citations at all,
synthesize up to three from the top chunks, and finally drop every
citation whose quote is still blank. -/
def backfill_citations (citations : List Citation) (chunks : List RChunk)
    (question : String) : List Citation :=
  (if citations.isEmpty then
    (chunks.take 3).map (fun ch =>
      ⟨ch.filename, ch.pageNumber, ch.sectionTitle, best_sentence ch.text question⟩)
   else citations.map (backfill_one chunks question)).filter
    (fun c => pyStrip c.quote ≠ "")

/-- The validated verdict (`covered`, `confidence`, `explanation`,
`citations`, `caveats`).  Of the `_meta` diagnostic block only the
`fallback` flag is modelled (`question`, timings and counts carry no
verdict semantics). -/
structure Verdict where
  covered : String
  confidence : ℚ
  explanation : String
  citations : List Citation
  caveats : List String
  metaFallback : Bool
deriving Repr, DecidableEq, Inhabited

/-- `_fallback_response(question, error)` (lines 320-334): the graceful
fallback verdict.  The `question` argument only enters the unmodelled
`_meta.question` field. -/
def fallback_response (_q error : String) : Verdict :=
  ⟨"Unknown", 0,
   "Could not determine coverage. The model response could not be parsed as valid JSON. Error: "
     ++ error,
   [], [], true⟩

/-- Step 6 of `CoverageAgent.ask` (line 531): replace the citations
with their backfilled version, leaving every other field alone. -/
def apply_backfill (v : Verdict) (chunks : List RChunk) (question : String) : Verdict :=
  ⟨v.covered, v.confidence, v.explanation,
   backfill_citations v.citations chunks question, v.caveats, v.metaFallback⟩

/-- Python `float(s)` on a decimal string literal (optional sign,
integer and/or fractional digits, optional exponent), `none` on
anything unparseable (`ValueError`).  Python additionally accepts
`inf`/`nan` spellings and underscore separators; those inputs occur
nowhere in the claims. -/
def parse_py_float (s : String) : Option ℚ :=
  let cs := pyStripList s.toList
  let sgnNeg : Bool := cs.head? = some '-'
  let cs1 := if cs.head? = some '-' ∨ cs.head? = some '+' then cs.drop 1 else cs
  let ip := cs1.takeWhile Char.isDigit
  let cs2 := cs1.dropWhile Char.isDigit
  let withDot : Bool := cs2.head? = some '.'
  let fp := if withDot then (cs2.drop 1).takeWhile Char.isDigit else []
  let cs3 := if withDot then (cs2.drop 1).dropWhile Char.isDigit else cs2
  if ip.isEmpty ∧ fp.isEmpty then none
  else
    let base : ℚ := (digitsToNat ip : ℚ) + (digitsToNat fp : ℚ) / ((10 : ℚ) ^ fp.length)
    let signed : ℚ := if sgnNeg then -base else base
    match cs3 with
    | [] => some signed
    | c :: r =>
      if c = 'e' ∨ c = 'E' then
        let eNeg : Bool := r.head? = some '-'
        let r1 := if r.head? = some '-' ∨ r.head? = some '+' then r.drop 1 else r
        let ed := r1.takeWhile Char.isDigit
        let r2 := r1.dropWhile Char.isDigit
        if ed.isEmpty ∨ ¬ r2.isEmpty then none
        else
          let m : ℚ := (10 : ℚ) ^ digitsToNat ed
          some (if eNeg then signed / m else signed * m)
      else none

/-- Python `int(s)` on a string (optional sign, digits), `none` on
failure. -/
def parse_py_int (s : String) : Option Int :=
  let cs := pyStripList s.toList
  let sgnNeg : Bool := cs.head? = some '-'
  let cs1 := if cs.head? = some '-' ∨ cs.head? = some '+' then cs.drop 1 else cs
  if ¬ cs1.isEmpty ∧ cs1.all Char.isDigit then
    some (if sgnNeg then -(digitsToNat cs1 : Int) else (digitsToNat cs1 : Int))
  else none

/-- Python `float(v)` on a parsed JSON value: numbers and booleans
convert, strings are parsed, everything else raises (`none` =
`TypeError`/`ValueError`). -/
def py_float : JVal → Option ℚ
  | JVal.num q => some q
  | JVal.bool b => some (if b then 1 else 0)
  | JVal.str s => parse_py_float s
  | _ => none

/-- Python `int(v)`: numbers truncate towards zero, booleans convert,
strings must be integer literals; everything else raises. -/
def py_int : JVal → Option Int
  | JVal.num q => some (if 0 ≤ q then q.floor else q.ceil)
  | JVal.bool b => some (if b then 1 else 0)
  | JVal.str s => parse_py_int s
  | _ => none

/-- `_safe_int` (lines 312-317): `int(val)`, or 0 on failure. -/
def safe_int (v : JVal) : Int :=
  (py_int v).getD 0

/-- The confidence handling of `_validate_response` (lines 248-254),
applied to the (already flattened) `confidence` field value:
`float(conf)` clamped to `[0, 1]` by `max(0.0, min(1.0, conf))`, with
`0.0` on `TypeError`/`ValueError`. -/
def validate_confidence (v : JVal) : ℚ :=
  match py_float v with
  | some x => max 0 (min 1 x)
  | none => 0

/-- The confidence handling of `AnswerChain._normalise_llm_output`
(lines 375-384), applied to the (already flattened) `confidence` field
value: a string is parsed with `float`, falling back to `0.5` on
`ValueError`; a non-number likewise becomes `0.5`; no clamping is
applied. -/
def chain_confidence : JVal → ℚ
  | JVal.str s =>
    (match parse_py_float s with
     | some x => x
     | none => 1/2)
  | JVal.num q => q
  | JVal.bool b => if b then 1 else 0
  | _ => 1/2

/-- `_flatten_value` (lines 221-229) with explicit recursion fuel: an
object carrying a `value` key with at most three keys unwraps to (the
flattening of) that value; other containers flatten elementwise. -/
def flattenValueF : Nat → JVal → JVal
  | 0, v => v
  | f + 1, JVal.obj kvs =>
    if kvs.any (fun kv => kv.1 == "value") ∧ kvs.length ≤ 3 then
      flattenValueF f ((jGet kvs "value").getD JVal.null)
    else JVal.obj (kvs.map (fun kv => (kv.1, flattenValueF f kv.2)))
  | f + 1, JVal.arr vs => JVal.arr (vs.map (flattenValueF f))
  | _ + 1, v => v

/-- `_flatten_value` with sufficient fuel (each step strictly decreases
the depth, so the depth bounds the recursion). -/
def flattenValue (v : JVal) : JVal :=
  flattenValueF (jDepth v) v

/-- The `covered` mapping of `_validate_response` (lines 242-246):
`capitalize` and compare against the closed enumeration, defaulting to
`Unknown`. -/
def validate_covered (v : JVal) : String :=
  match v with
  | JVal.str s =>
    if pyCapitalize s = "Yes" ∨ pyCapitalize s = "No"
        ∨ pyCapitalize s = "Partial" ∨ pyCapitalize s = "Unknown" then
      pyCapitalize s
    else "Unknown"
  | _ => "Unknown"

/-- The `explanation` mapping of `_validate_response` (lines 257-263). -/
def validate_explanation (v : JVal) : String :=
  match v with
  | JVal.str s => pyStrip s
  | JVal.obj l =>
    if l.any (fun kv => kv.1 == "value") then pyStrip (pyStr ((jGet l "value").getD JVal.null))
    else pyStr (JVal.obj l)
  | v2 => pyStr v2

/-- One citation entry of `_validate_response` (lines 269-277):
non-dict entries are dropped; a dict entry is flattened and its fields
read under their aliases.  (When flattening collapses the dict to a
scalar, CPython raises at the subsequent `c.get`; that pathological
input is modelled as an entry with no keys.) -/
def validate_citation_entry (c : JVal) : Option Citation :=
  match c with
  | JVal.obj l =>
    let cf := match flattenValue (JVal.obj l) with
      | JVal.obj l2 => l2
      | _ => []
    some ⟨pyStr ((jGet cf "file").getD ((jGet cf "filename").getD (JVal.str ""))),
          safe_int ((jGet cf "page").getD ((jGet cf "page_number").getD (JVal.num 0))),
          pyStr ((jGet cf "section").getD ((jGet cf "section_title").getD (JVal.str ""))),
          pyStr ((jGet cf "quote").getD ((jGet cf "text").getD (JVal.str "")))⟩
  | _ => none

/-- The `citations` mapping of `_validate_response` (lines 266-278). -/
def validate_citations (v : JVal) : List Citation :=
  match v with
  | JVal.arr items => items.filterMap validate_citation_entry
  | _ => []

/-- One caveat entry of `_validate_response` (lines 284-294): a
non-blank string is stripped and kept; a dict contributes its first
non-blank string value; `None` is dropped; anything else is
stringified. -/
def caveat_entry (cv : JVal) : Option String :=
  match cv with
  | JVal.str s => if pyStrip s ≠ "" then some (pyStrip s) else none
  | JVal.obj l =>
    (l.map (fun kv => kv.2)).findSome? (fun v =>
      match v with
      | JVal.str s => if pyStrip s ≠ "" then some (pyStrip s) else none
      | _ => none)
  | JVal.null => none
  | v2 => some (pyStr v2)

/-- The `caveats` mapping of `_validate_response` (lines 281-297). -/
def validate_caveats (v : JVal) : List String :=
  match v with
  | JVal.arr items => items.filterMap caveat_entry
  | JVal.str s => if pyStrip s ≠ "" then [pyStrip s] else []
  | _ => []

/-- The known top-level keys of line 300. -/
def known_keys : List String :=
  ["covered", "answer", "confidence", "explanation", "citations", "caveats", "type", "value"]

/-- `_validate_response(data)` (lines 232-309): flatten, map every
field under its aliases with typed defaults, and salvage unrecognized
long string fields into a too-short explanation.  (When flattening
collapses the top-level dict to a scalar, CPython raises at the
subsequent `data.get`; that pathological input is modelled as an empty
mapping.)  The success path carries no `fallback` diagnostic flag. -/
def validate_response (kvs : List (String × JVal)) : Verdict :=
  let data := match flattenValue (JVal.obj kvs) with
    | JVal.obj l => l
    | _ => []
  let covered := validate_covered ((jGet data "covered").getD ((jGet data "answer").getD (JVal.str "Unknown")))
  let confidence := validate_confidence ((jGet data "confidence").getD (JVal.num 0))
  let explanation := validate_explanation ((jGet data "explanation").getD (JVal.str ""))
  let citations := validate_citations ((jGet data "citations").getD (JVal.arr []))
  let caveats := validate_caveats ((jGet data "caveats").getD (JVal.arr []))
  let extras := (data.filter (fun kv =>
    (!(known_keys.contains kv.1)) &&
      (match kv.2 with
       | JVal.str s => decide (10 < strLen s)
       | _ => false))).map (fun kv =>
        match kv.2 with
        | JVal.str s => s
        | _ => "")
  let explanation2 :=
    if ¬ extras.isEmpty ∧ strLen explanation < 30 then strTake (strJoin (" ") extras) 1000
    else explanation
  ⟨covered, confidence, explanation2, citations, caveats, false⟩

/-- `re.sub(r"^" ++ fence ++ "(?:json)?\s*\n?", "", s)` of
`_extract_json` (line 196), for `s` starting with the fence: drop the
three backticks, an optional `json` tag, then all leading whitespace
(the greedy `\s*` subsumes the optional newline). -/
def fence_head_strip (s : String) : String :=
  let s1 := strDrop s 3
  let s2 := if pyStarts s1 ("json") then strDrop s1 4 else s1
  String.mk (s2.toList.dropWhile Char.isWhitespace)

/-- Does this suffix consist of a closing fence followed only by
whitespace? -/
def ticks_ws (cs : List Char) : Bool :=
  matchesAt ("```".toList) cs && (cs.drop 3).all Char.isWhitespace

/-- Does the tail-fence regex `\n?` ++ fence ++ `\s*$` of line 197 match
starting exactly at this position (and run to the end)? -/
def fence_tail_hit : List Char → Bool
  | '\n' :: rest => ticks_ws rest
  | cs => ticks_ws cs

/-- `re.sub` deletes the leftmost match of the tail-fence regex (which
always extends to the end of the string). -/
def fence_tail_strip_aux : List Char → List Char
  | [] => []
  | c :: rest => if fence_tail_hit (c :: rest) then [] else c :: fence_tail_strip_aux rest

/-- `re.sub(r"\n?" ++ fence ++ "\s*$", "", s)` of line 197. -/
def fence_tail_strip (s : String) : String :=
  String.mk (fence_tail_strip_aux s.toList)

/-- `"\x7b"` as a character (kept out of literals). -/
def lbrace : Char := Char.ofNat 123

/-- `"\x7d"` as a character. -/
def rbrace : Char := Char.ofNat 125

/-- The scan of `re.search(r"\x7b[\s\S]*\x7d", cleaned)` (line 209):
the suffix starting at the first opening brace that has some closing
brace after it. -/
def brace_start : List Char → Option (List Char)
  | [] => none
  | c :: rest =>
    if c == lbrace && rest.contains rbrace then some (c :: rest) else brace_start rest

/-- The span matched by `re.search(r"\x7b[\s\S]*\x7d", s)`: from the
first viable opening brace to the last closing brace (the greedy `*`
backtracks to the last one). -/
def brace_span (s : String) : Option String :=
  match brace_start s.toList with
  | none => none
  | some suf =>
    match suf.reverse.indexOf? rbrace with
    | some k => some (String.mk (suf.take (suf.length - k)))
    | none => none

/-- The cleaned text of `_extract_json` lines 192-198: strip, and when
the text starts with a fence, peel the head and tail fences and strip
again. -/
def cleanedText (text : String) : String :=
  if pyStarts (pyStrip text) ("```") then
    pyStrip (fence_tail_strip (fence_head_strip (pyStrip text)))
  else pyStrip text

/-- `_extract_json(text)` (lines 187-218): clean the text, try a direct
parse (a non-object parse falls through, like Python's `isinstance`
check), otherwise parse the first balanced-looking brace span.  `parse`
is the abstract `json.loads` (`none` = `JSONDecodeError`). -/
def extract_json (parse : String → Option JVal) (text : String) :
    Option (List (String × JVal)) :=
  match parse (cleanedText text) with
  | some (JVal.obj kvs) => some kvs
  | _ =>
    match brace_span (cleanedText text) with
    | none => none
    | some sub =>
      match parse sub with
      | some (JVal.obj kvs) => some kvs
      | _ => none

/-- Steps 5-6 of `CoverageAgent.ask` (lines 517-531): parse the raw
generation-service text; on failure return the fallback verdict,
salvaging the raw text into the explanation when it is longer than 20
characters after stripping; on success validate and backfill. -/
def ask_normalize (parse : String → Option JVal) (question raw : String)
    (chunks : List RChunk) : Verdict :=
  match extract_json parse raw with
  | none =>
    if 20 < strLen (pyStrip raw) then
      ⟨(fallback_response question ("Response was not valid JSON")).covered,
       (fallback_response question ("Response was not valid JSON")).confidence,
       strTake (pyStrip raw) 1000,
       (fallback_response question ("Response was not valid JSON")).citations,
       (fallback_response question ("Response was not valid JSON")).caveats,
       (fallback_response question ("Response was not valid JSON")).metaFallback⟩
    else fallback_response question ("Response was not valid JSON")
  | some kvs => apply_backfill (validate_response kvs) chunks question

/-! ## Concrete inputs used by counterexamples and witnesses -/

/-- Token counts for the eight-sentence counterexample document: a
tokenizer assigning `[100, 550, 150, 700, 10, 10, 790, 20]` to the
sentences of `exSents`. -/
def exTok : String → Nat := fun s =>
  if s = "s0" then 100 else if s = "s1" then 550 else if s = "s2" then 150
  else if s = "s3" then 700 else if s = "s4" then 10 else if s = "s5" then 10
  else if s = "s6" then 790 else 20

/-- Eight sentences (their text content is irrelevant to chunk
boundaries; only the token counts matter). -/
def exSents : List String :=
  ["s0", "s1", "s2", "s3", "s4", "s5", "s6", "s7"]

/-- Tokenizer for the small witness document: `[30, 30, 30, 200]`. -/
def tok2 : String → Nat := fun s =>
  if s = "a" then 30 else if s = "b" then 30 else if s = "c" then 30 else 200

/-- A four-sentence witness document. -/
def sents2 : List String :=
  ["a", "b", "c", "d"]

/-- A citation whose quote the model left empty and whose file name
matches no retrieved chunk. -/
def cxCit : Citation :=
  ⟨"x.pdf", 3, "S", ""⟩

/-- A single (hence highest-ranked) retrieved chunk with a usable
sentence. -/
def cxChunk : RChunk :=
  ⟨"Knee surgery is covered here. No dental cover.", "policy.pdf", 1, 5, "Benefits"⟩

/-- The question for the backfill examples. -/
def cxQuestion : String :=
  "Is knee surgery covered?"

/-- A citation that already carries a quote. -/
def cxCitFull : Citation :=
  ⟨"policy.pdf", 2, "Benefits", "Knee surgery is covered here."⟩

/-- The corrected overlap relation between two consecutive chunks
(amended C4): the later chunk starts strictly after the earlier one but
no later than its end; and when the overlap budget is positive and the
earlier chunk has more than one sentence, the two chunks share at least
one sentence and the shared token count beyond the first shared
sentence stays strictly below the overlap budget (the total shared
count may exceed the budget by up to that first sentence's tokens). -/
def overlapOk (toks : List Nat) (overlap : Nat) (c1 c2 : SChunk) : Prop :=
  c1.startSent < c2.startSent ∧ c2.startSent ≤ c1.endSent ∧
  (0 < overlap → c1.startSent + 1 < c1.endSent →
    c2.startSent < c1.endSent ∧ sharedTok toks (c2.startSent + 1) c1.endSent < overlap)

/-! ## Lemmas about the chunker -/

theorem accumLen_le_length (target : Nat) :
    ∀ (l : List Nat) (acc : Nat), accumLen target acc l ≤ l.length := by
  intro l
  induction l with
  | nil => intro acc; simp [accumLen]
  | cons t ts ih =>
    intro acc
    unfold accumLen
    by_cases h : acc + t ≤ target
    · simp only [if_pos h, List.length_cons]
      have := ih (acc + t)
      omega
    · simp [if_neg h]

theorem accumLen_sum_le (target : Nat) :
    ∀ (l : List Nat) (acc : Nat), acc ≤ target →
      acc + (l.take (accumLen target acc l)).sum ≤ target := by
  intro l
  induction l with
  | nil => intro acc h; simpa [accumLen] using h
  | cons t ts ih =>
    intro acc h
    unfold accumLen
    by_cases hc : acc + t ≤ target
    · simp only [if_pos hc, List.take_succ_cons, List.sum_cons]
      have := ih (acc + t) hc
      omega
    · simp only [if_neg hc, List.take_zero, List.sum_nil]
      omega

theorem accumLen_zero_head (target acc t : Nat) (ts : List Nat)
    (h : accumLen target acc (t :: ts) = 0) : target < acc + t := by
  unfold accumLen at h
  by_cases hc : acc + t ≤ target
  · simp [if_pos hc] at h
  · omega

theorem accEnd_gt (toks : List Nat) (target i : Nat) : i < accEnd toks target i := by
  unfold accEnd
  by_cases h : accumLen target 0 (toks.drop i) = 0
  · rw [if_pos h]; omega
  · rw [if_neg h]; omega

theorem accEnd_le (toks : List Nat) (target i : Nat) (h : i < toks.length) :
    accEnd toks target i ≤ toks.length := by
  unfold accEnd
  have h1 := accumLen_le_length target (toks.drop i) 0
  rw [List.length_drop] at h1
  by_cases h0 : accumLen target 0 (toks.drop i) = 0
  · rw [if_pos h0]; omega
  · rw [if_neg h0]; omega

theorem nextStart_gt (toks : List Nat) (overlap i e : Nat) :
    i < nextStart toks overlap i e := by
  unfold nextStart
  have := le_max_right (e - rewindSteps overlap 0 (chunkSlice toks i e).reverse) (i + 1)
  omega

theorem nextStart_le (toks : List Nat) (overlap i e : Nat) (h : i < e) :
    nextStart toks overlap i e ≤ e := by
  unfold nextStart
  apply max_le <;> omega

theorem rewindSteps_pos (overlap acc t : Nat) (ts : List Nat) (h : acc < overlap) :
    0 < rewindSteps overlap acc (t :: ts) := by
  unfold rewindSteps
  simp [h]

theorem rewindSteps_pos_acc (overlap acc : Nat) (l : List Nat)
    (h : 0 < rewindSteps overlap acc l) : acc < overlap := by
  cases l with
  | nil => simp [rewindSteps] at h
  | cons t ts =>
    unfold rewindSteps at h
    by_cases hc : acc < overlap
    · exact hc
    · simp [hc] at h

theorem rewindSteps_take_sum (overlap : Nat) :
    ∀ (l : List Nat) (acc : Nat), acc < overlap →
      acc + (l.take (rewindSteps overlap acc l - 1)).sum < overlap := by
  intro l
  induction l with
  | nil => intro acc h; simpa [rewindSteps] using h
  | cons t ts ih =>
    intro acc h
    unfold rewindSteps
    simp only [if_pos h, Nat.add_sub_cancel]
    rcases Nat.eq_zero_or_pos (rewindSteps overlap (acc + t) ts) with h0 | hp
    · simpa [h0] using h
    · have hlt : acc + t < overlap := rewindSteps_pos_acc overlap (acc + t) ts hp
      have hih := ih (acc + t) hlt
      obtain ⟨k0, hk⟩ : ∃ k0, rewindSteps overlap (acc + t) ts = k0 + 1 :=
        ⟨rewindSteps overlap (acc + t) ts - 1, by omega⟩
      rw [hk]
      rw [hk] at hih
      simp only [Nat.add_sub_cancel] at hih
      simp only [List.take_succ_cons, List.sum_cons]
      omega

theorem chunk_loop_nil_of_ge (sents : List String) (toks : List Nat)
    (target overlap fuel i cidx : Nat) (h : sents.length ≤ i) :
    chunk_loop sents toks target overlap fuel i cidx = [] := by
  cases fuel with
  | zero => rfl
  | succ f =>
    unfold chunk_loop
    rw [if_neg (by omega)]

theorem chunk_loop_head (sents : List String) (toks : List Nat)
    (target overlap fuel i cidx : Nat) (c : SChunk)
    (h : (chunk_loop sents toks target overlap fuel i cidx).head? = some c) :
    c = mkChunk sents toks target i cidx := by
  cases fuel with
  | zero => simp [chunk_loop] at h
  | succ f =>
    unfold chunk_loop at h
    by_cases hi : i < sents.length
    · rw [if_pos hi] at h
      simp only [List.head?_cons, Option.some.injEq] at h
      exact h.symm
    · rw [if_neg hi] at h
      simp at h

theorem chunk_loop_token_bound (tok : String → Nat) (sents : List String)
    (target overlap : Nat) :
    ∀ (fuel i cidx : Nat) (c : SChunk),
      c ∈ chunk_loop sents (sents.map tok) target overlap fuel i cidx →
      c.tokenCount ≤ target ∨
      (c.endSent = c.startSent + 1 ∧ target < c.tokenCount ∧
        c.text = sents.getD c.startSent "" ∧
        c.tokenCount = tok (sents.getD c.startSent "")) := by
  intro fuel
  induction fuel with
  | zero => intro i cidx c hc; simp [chunk_loop] at hc
  | succ f ih =>
    intro i cidx c hc
    unfold chunk_loop at hc
    by_cases hi : i < sents.length
    · rw [if_pos hi] at hc
      rcases List.mem_cons.mp hc with hc | hc
      · subst hc
        have hit : i < (sents.map tok).length := by simpa using hi
        by_cases h0 : accumLen target 0 ((sents.map tok).drop i) = 0
        · right
          have hend : accEnd (sents.map tok) target i = i + 1 := by
            unfold accEnd; rw [if_pos h0]
          have hdropT := List.drop_eq_getElem_cons hit
          have hdropS := List.drop_eq_getElem_cons hi
          have h1 : i + 1 - i = 1 := by omega
          have hsliceT : chunkSlice (sents.map tok) i (i + 1) = [(sents.map tok)[i]] := by
            unfold chunkSlice
            rw [h1, hdropT, List.take_succ_cons, List.take_zero]
          have htok : (mkChunk sents (sents.map tok) target i cidx).tokenCount
              = tok (sents.getD i "") := by
            show (chunkSlice (sents.map tok) i (accEnd (sents.map tok) target i)).sum
              = tok (sents.getD i "")
            rw [hend, hsliceT, List.getD_eq_getElem sents "" hi]
            simp [List.getElem_map]
          refine ⟨?_, ?_, ?_, ?_⟩
          · show accEnd (sents.map tok) target i = i + 1
            exact hend
          · show target < (chunkSlice (sents.map tok) i (accEnd (sents.map tok) target i)).sum
            rw [hend, hsliceT]
            have := accumLen_zero_head target 0 ((sents.map tok)[i])
              ((sents.map tok).drop (i + 1)) (by rw [← hdropT]; exact h0)
            simpa using this
          · show strJoin (" ")
                ((sents.drop i).take (accEnd (sents.map tok) target i - i))
              = sents.getD i ""
            rw [hend, h1, hdropS, List.take_succ_cons, List.take_zero]
            show sents[i] = sents.getD i ""
            rw [List.getD_eq_getElem sents "" hi]
          · exact htok
        · left
          have hend : accEnd (sents.map tok) target i
              = i + accumLen target 0 ((sents.map tok).drop i) := by
            unfold accEnd; rw [if_neg h0]
          show (chunkSlice (sents.map tok) i (accEnd (sents.map tok) target i)).sum ≤ target
          rw [hend]
          unfold chunkSlice
          have h2 : i + accumLen target 0 ((sents.map tok).drop i) - i
              = accumLen target 0 ((sents.map tok).drop i) := by omega
          rw [h2]
          have := accumLen_sum_le target ((sents.map tok).drop i) 0 (Nat.zero_le _)
          omega
      · exact ih _ _ _ hc
    · rw [if_neg hi] at hc
      simp at hc

/-- C1.  Every chunk produced by `chunk_document` has token count at
most the target budget, except when the chunk is a single sentence
whose own token count exceeds the budget — and then the chunk's text is
exactly that sentence and its token count is that sentence's. -/
theorem chunk_document_token_bound (tok : String → Nat) (sentences : List String)
    (target overlap : Nat) :
    ∀ c ∈ chunk_document tok sentences target overlap,
      c.tokenCount ≤ target ∨
      (c.endSent = c.startSent + 1 ∧ target < c.tokenCount ∧
        c.text = sentences.getD c.startSent "" ∧
        c.tokenCount = tok (sentences.getD c.startSent "")) := by
  intro c hc
  exact chunk_loop_token_bound tok sentences target overlap _ _ _ c hc

theorem chunk_loop_fuel_stable (sents : List String) (toks : List Nat)
    (target overlap : Nat) :
    ∀ (f1 f2 i cidx : Nat), sents.length - i ≤ f1 → sents.length - i ≤ f2 →
      chunk_loop sents toks target overlap f1 i cidx
        = chunk_loop sents toks target overlap f2 i cidx := by
  intro f1
  induction f1 with
  | zero =>
    intro f2 i cidx h1 h2
    have hge : sents.length ≤ i := by omega
    rw [chunk_loop_nil_of_ge sents toks target overlap 0 i cidx hge,
        chunk_loop_nil_of_ge sents toks target overlap f2 i cidx hge]
  | succ f ih =>
    intro f2 i cidx h1 h2
    by_cases hi : i < sents.length
    · cases f2 with
      | zero => omega
      | succ g =>
        unfold chunk_loop
        rw [if_pos hi, if_pos hi]
        congr 1
        apply ih
        · have hg1 := accEnd_gt toks target i
          have hg2 := nextStart_gt toks overlap i (accEnd toks target i)
          by_cases he : accEnd toks target i < sents.length
          · rw [if_pos he]; omega
          · rw [if_neg he]; omega
        · have hg1 := accEnd_gt toks target i
          have hg2 := nextStart_gt toks overlap i (accEnd toks target i)
          by_cases he : accEnd toks target i < sents.length
          · rw [if_pos he]; omega
          · rw [if_neg he]; omega
    · have hge : sents.length ≤ i := by omega
      rw [chunk_loop_nil_of_ge sents toks target overlap _ i cidx hge,
          chunk_loop_nil_of_ge sents toks target overlap f2 i cidx hge]

/-- C5.  The chunking loop makes strict forward progress and therefore
terminates: the cursor at chunk close (`accEnd`) and the cursor after
the overlap rewind (`nextStart`, clamped by
`max(i - rewind_count, start + 1)`) both strictly exceed the chunk's
start sentence, and consequently the fuelled loop is stable —
any fuel of at least one unit per remaining sentence (in particular the
`sentences.length` used by `chunk_document`) yields the same chunk
list. -/
theorem chunk_loop_progress_terminates :
    (∀ (toks : List Nat) (target i : Nat), i < accEnd toks target i) ∧
    (∀ (toks : List Nat) (overlap i e : Nat), i < nextStart toks overlap i e) ∧
    (∀ (sents : List String) (toks : List Nat) (target overlap f1 f2 i cidx : Nat),
      sents.length - i ≤ f1 → sents.length - i ≤ f2 →
        chunk_loop sents toks target overlap f1 i cidx
          = chunk_loop sents toks target overlap f2 i cidx) ∧
    (∀ (tok : String → Nat) (sentences : List String) (target overlap f : Nat),
      sentences.length ≤ f →
        chunk_loop sentences (sentences.map tok) target overlap f 0 0
          = chunk_document tok sentences target overlap) := by
  refine ⟨accEnd_gt, nextStart_gt, chunk_loop_fuel_stable, ?_⟩
  intro tok sentences target overlap f hf
  exact chunk_loop_fuel_stable sentences (sentences.map tok) target overlap
    f sentences.length 0 0 (by omega) (by omega)

/-- Witness for C5 at a concrete document: oversupplying fuel does not
change the output of the loop. -/
theorem chunk_loop_progress_terminates_witness :
    chunk_loop sents2 (sents2.map tok2) 100 20 10 0 0
      = chunk_loop sents2 (sents2.map tok2) 100 20 4 0 0 :=
  chunk_loop_progress_terminates.2.2.1 sents2 (sents2.map tok2) 100 20 10 4 0 0
    (by decide) (by decide)

theorem sum_take_le (l : List Nat) : ∀ m, (l.take m).sum ≤ l.sum := by
  induction l with
  | nil => intro m; simp
  | cons t ts ih =>
    intro m
    cases m with
    | zero => simp
    | succ k =>
      simp only [List.take_succ_cons, List.sum_cons]
      have := ih k
      omega

theorem sum_take_mono (l : List Nat) (m n : Nat) (h : m ≤ n) :
    (l.take m).sum ≤ (l.take n).sum := by
  have h1 : (l.take n).take m = l.take m := by
    rw [List.take_take, Nat.min_eq_left h]
  calc (l.take m).sum = ((l.take n).take m).sum := by rw [h1]
    _ ≤ (l.take n).sum := sum_take_le _ _

theorem drop_sum_eq_rev_take_sum (L : List Nat) (k : Nat) :
    (L.drop k).sum = (L.reverse.take (L.length - k)).sum := by
  have h1 : (L.take k).sum + (L.drop k).sum = L.sum := by
    rw [← List.sum_append, List.take_append_drop]
  have h2 : (L.reverse.take (L.length - k)).sum + (L.reverse.drop (L.length - k)).sum
      = L.sum := by
    rw [← List.sum_append, List.take_append_drop, List.sum_reverse]
  have h3 : L.reverse.drop (L.length - k) = (L.take k).reverse := by
    rw [List.reverse_take]
  rw [h3, List.sum_reverse] at h2
  omega

theorem nextStart_overlap_bound (toks : List Nat) (overlap i e : Nat)
    (hov : 0 < overlap) (hlt : i + 1 < e) (he : e ≤ toks.length) :
    nextStart toks overlap i e < e ∧
    sharedTok toks (nextStart toks overlap i e + 1) e < overlap := by
  have hLlen : (chunkSlice toks i e).length = e - i := by
    unfold chunkSlice
    rw [List.length_take, List.length_drop]
    exact Nat.min_eq_left (by omega)
  have hrcpos : 0 < rewindSteps overlap 0 (chunkSlice toks i e).reverse := by
    have hne : (chunkSlice toks i e).reverse ≠ [] := by
      intro hnil
      rw [List.reverse_eq_nil_iff] at hnil
      have hlen0 : (chunkSlice toks i e).length = 0 := by rw [hnil]; rfl
      rw [hLlen] at hlen0
      omega
    obtain ⟨b, Lb, hb⟩ := List.exists_cons_of_ne_nil hne
    rw [hb]
    exact rewindSteps_pos overlap 0 b Lb hov
  set rc := rewindSteps overlap 0 (chunkSlice toks i e).reverse with hrc
  have hns : nextStart toks overlap i e = max (e - rc) (i + 1) := rfl
  have h1 : nextStart toks overlap i e < e := by
    rw [hns]
    exact max_lt (by omega) (by omega)
  refine ⟨h1, ?_⟩
  set s := nextStart toks overlap i e with hsdef
  have hsge : i + 1 ≤ s := by rw [hns]; exact le_max_right _ _
  have hserc : e - rc ≤ s := by rw [hns]; exact le_max_left _ _
  have hA : (chunkSlice toks i e).drop (s + 1 - i) = (toks.drop (s + 1)).take (e - (s + 1)) := by
    unfold chunkSlice
    rw [List.drop_take, List.drop_drop]
    congr 1
    · omega
    · congr 1
      omega
  have hAs : sharedTok toks (s + 1) e = ((chunkSlice toks i e).drop (s + 1 - i)).sum :=
    (congrArg List.sum hA).symm
  have hB := drop_sum_eq_rev_take_sum (chunkSlice toks i e) (s + 1 - i)
  have hm : (chunkSlice toks i e).length - (s + 1 - i) = e - s - 1 := by
    rw [hLlen]; omega
  have hmc : e - s - 1 ≤ rc - 1 := by omega
  have hD := sum_take_mono (chunkSlice toks i e).reverse (e - s - 1) (rc - 1) hmc
  have hE := rewindSteps_take_sum overlap (chunkSlice toks i e).reverse 0 hov
  rw [← hrc] at hE
  rw [hAs, hB, hm]
  omega

theorem chunk_loop_chain (sents : List String) (toks : List Nat)
    (target overlap : Nat) (hlen : toks.length = sents.length) :
    ∀ (fuel i cidx : Nat),
      List.Chain' (overlapOk toks overlap)
        (chunk_loop sents toks target overlap fuel i cidx) := by
  intro fuel
  induction fuel with
  | zero => intro i cidx; simp [chunk_loop]
  | succ f ih =>
    intro i cidx
    unfold chunk_loop
    by_cases hi : i < sents.length
    · rw [if_pos hi]
      refine List.chain'_cons'.mpr ⟨?_, ih _ _⟩
      intro c2 hc2
      have hc2eq := chunk_loop_head sents toks target overlap f _ _ c2
        (Option.mem_def.mp hc2)
      have hne : chunk_loop sents toks target overlap f
          (if accEnd toks target i < sents.length then
            nextStart toks overlap i (accEnd toks target i)
           else accEnd toks target i) (cidx + 1) ≠ [] := by
        intro hnil
        rw [hnil] at hc2
        simp at hc2
      have hi2lt : (if accEnd toks target i < sents.length then
          nextStart toks overlap i (accEnd toks target i)
         else accEnd toks target i) < sents.length := by
        by_contra hge
        push_neg at hge
        exact hne (chunk_loop_nil_of_ge _ _ _ _ _ _ _ hge)
      by_cases hecase : accEnd toks target i < sents.length
      · rw [if_pos hecase] at hc2eq
        subst hc2eq
        refine ⟨?_, ?_, ?_⟩
        · show i < nextStart toks overlap i (accEnd toks target i)
          exact nextStart_gt _ _ _ _
        · show nextStart toks overlap i (accEnd toks target i) ≤ accEnd toks target i
          exact nextStart_le _ _ _ _ (accEnd_gt _ _ _)
        · intro hov hlt2
          have hlt : i + 1 < accEnd toks target i := hlt2
          have hit : i < toks.length := by omega
          have he : accEnd toks target i ≤ toks.length := accEnd_le toks target i hit
          have hb := nextStart_overlap_bound toks overlap i (accEnd toks target i) hov hlt he
          exact ⟨hb.1, hb.2⟩
      · rw [if_neg hecase] at hi2lt
        exact absurd hi2lt hecase
    · rw [if_neg hi]
      simp

/-- C4 amended.  The claim's bounds fail on the code (see the
counterexample); what `chunk_document` actually guarantees for each
pair of consecutive chunks is: the later chunk starts strictly after
the earlier one and no later than its end, and — whenever the overlap
budget is positive and the earlier chunk has more than one sentence —
the two chunks share at least one sentence while the shared token
count beyond the first shared sentence stays strictly below the
overlap budget (so the total shared count can exceed the budget by at
most the first shared sentence's tokens); a single-sentence chunk is
followed with no overlap at all. -/
theorem chunk_overlap_amended (tok : String → Nat) (sentences : List String)
    (target overlap : Nat) :
    List.Chain' (overlapOk (sentences.map tok) overlap)
      (chunk_document tok sentences target overlap) :=
  chunk_loop_chain sentences (sentences.map tok) target overlap (by simp) _ _ _

/-- C4 counterexample.  On an eight-sentence document with token counts
`[100, 550, 150, 700, 10, 10, 790, 20]`, target 800 and overlap budget
100, `chunk_document` produces seven chunks; chunk 1 (of sentences
0-2, not among the last two, with sentences remaining after it) is
followed by chunk 2 starting at sentence 2, so their shared sentences
carry 150 tokens — exceeding the overlap budget of 100; and chunk 2
(single-sentence, also not among the last two, with sentences
remaining) is followed by chunk 3 starting exactly at its end, sharing
zero sentences — less than one sentence's worth.  Both bounds of the
claim fail. -/
theorem chunk_overlap_counterexample :
    (chunk_document exTok exSents 800 100).length = 7 ∧
    ((chunk_document exTok exSents 800 100).getD 0 default).endSent = 3 ∧
    ((chunk_document exTok exSents 800 100).getD 0 default).startSent = 0 ∧
    ((chunk_document exTok exSents 800 100).getD 1 default).startSent = 2 ∧
    sharedTok (exSents.map exTok) 2 3 = 150 ∧
    ¬ sharedTok (exSents.map exTok) 2 3 ≤ 100 ∧
    ((chunk_document exTok exSents 800 100).getD 1 default).endSent = 3 ∧
    ((chunk_document exTok exSents 800 100).getD 2 default).startSent = 3 ∧
    exSents.length = 8 := by
  decide

/-- Witness for the amended C4 at a concrete document: for the first
two of its three chunks, the overlap budget 20 is positive, chunk 1 has
more than one sentence, and the conclusion of the amended bound holds. -/
theorem chunk_overlap_amended_witness :
    (0 : Nat) < 20 ∧ 0 + 1 < 3 ∧ 2 < 3 ∧ sharedTok (sents2.map tok2) (2 + 1) 3 < 20 := by
  have h := chunk_overlap_amended tok2 sents2 100 20
  have hcs : chunk_document tok2 sents2 100 20 =
      [⟨1, "a b c", 90, 0, 3, 0, 5⟩, ⟨2, "c", 30, 2, 3, 4, 5⟩, ⟨3, "d", 200, 3, 4, 6, 7⟩] := by
    decide
  rw [hcs] at h
  have hr := (List.chain'_cons'.mp h).1
  have hR := hr ⟨2, "c", 30, 2, 3, 4, 5⟩ (by simp)
  have hconc := hR.2.2 (by decide) (by decide)
  exact ⟨by omega, by omega, hconc.1, hconc.2⟩

/-! ## Retrieval-engine theorems -/

/-- C7 counterexample.  With question `"q"` and variants `["A", "a"]`
the executed query set is `["q", "A", "a"]`: the two variants are
case-insensitively equal yet both are executed, because line 200 only
deduplicates each variant against the question, never against the
other variants. -/
theorem query_dedup_counterexample :
    all_queries ("q") (["A", "a"]) = ["q", "A", "a"] ∧
    pyLower ("A") = pyLower ("a") ∧ ("A" : String) ≠ "a" := by
  decide

/-- C7 amended.  The executed query set is the question followed by
exactly those variants that are not case-insensitively equal to the
question; variants are not deduplicated against each other. -/
theorem query_dedup_amended (question : String) (variants : List String) :
    question ∈ all_queries question variants ∧
    (∀ v ∈ variants, pyLower v ≠ pyLower question → v ∈ all_queries question variants) ∧
    (∀ v ∈ all_queries question variants,
      v = question ∨ (v ∈ variants ∧ pyLower v ≠ pyLower question)) := by
  refine ⟨List.mem_cons_self _ _, ?_, ?_⟩
  · intro v hv hne
    exact List.mem_cons_of_mem _ (List.mem_filter.mpr ⟨hv, decide_eq_true hne⟩)
  · intro v hv
    rcases List.mem_cons.mp hv with h | h
    · exact Or.inl h
    · have hf := List.mem_filter.mp h
      exact Or.inr ⟨hf.1, of_decide_eq_true hf.2⟩

/-- Witness for the amended C7: the surviving variant is executed. -/
theorem query_dedup_amended_witness :
    ("A" : String) ∈ all_queries ("q") (["A", "a"]) :=
  (query_dedup_amended ("q") (["A", "a"])).2.1 ("A") (by decide) (by decide)

/-- C8.  Whenever the generation-service call raises (network error,
timeout, non-2xx status), or its output does not parse to a JSON
array, `expand_query` returns exactly the deterministic heuristic
expansion — the original
question, the coverage-terms-prefixed question, and the
exclusions/sub-limits/waiting-period-prefixed question, truncated to
`n` — and, being a total function of its inputs, it never raises. -/
theorem expand_query_fallback :
    (∀ (parse : String → Option JVal) (question : String) (n : Nat),
      expand_query (Except.error ()) parse question n = heuristic_expand question n) ∧
    (∀ (parse : String → Option JVal) (question raw : String) (n : Nat),
      (∀ vs, parse (cleanExpand raw) ≠ some (JVal.arr vs)) →
      expand_query (Except.ok raw) parse question n = heuristic_expand question n) ∧
    (∀ (question : String) (n : Nat),
      heuristic_expand question n =
        ([question, "coverage policy benefits " ++ question,
          "exclusions waiting period sub-limit " ++ question]).take n) := by
  refine ⟨fun parse question n => rfl, ?_, fun question n => rfl⟩
  intro parse question raw n h
  cases hp : parse (cleanExpand raw) with
  | none => simp only [expand_query, hp]
  | some v =>
    cases v with
    | arr vs => exact absurd hp (h vs)
    | str s => simp only [expand_query, hp]
    | num q => simp only [expand_query, hp]
    | bool b => simp only [expand_query, hp]
    | null => simp only [expand_query, hp]
    | obj kvs => simp only [expand_query, hp]

/-- Witness for C8: a concrete unparseable output falls back to the
three heuristic queries. -/
theorem expand_query_fallback_witness :
    expand_query (Except.ok ("garbage %%")) (fun _ => none) ("Is maternity covered?") 3 =
      ["Is maternity covered?",
       "coverage policy benefits Is maternity covered?",
       "exclusions waiting period sub-limit Is maternity covered?"] := by
  have h := expand_query_fallback.2.1 (fun _ => none) ("Is maternity covered?")
    ("garbage %%") 3 (fun vs hvs => Option.noConfusion hvs)
  rw [h]
  decide

theorem insert_hit_inv (acc processed : List Hit) (hh : Hit)
    (h1 : acc.Pairwise (fun a b => a.chunkId ≠ b.chunkId))
    (h2 : ∀ x ∈ acc, x ∈ processed ∧
      ∀ y ∈ processed, y.chunkId = x.chunkId → y.score ≤ x.score)
    (h3 : ∀ y ∈ processed, ∃ x ∈ acc, x.chunkId = y.chunkId) :
    (insert_hit acc hh).Pairwise (fun a b => a.chunkId ≠ b.chunkId) ∧
    (∀ x ∈ insert_hit acc hh, x ∈ processed ++ [hh] ∧
      ∀ y ∈ processed ++ [hh], y.chunkId = x.chunkId → y.score ≤ x.score) ∧
    (∀ y ∈ processed ++ [hh], ∃ x ∈ insert_hit acc hh, x.chunkId = y.chunkId) := by
  have hsym : Symmetric (fun a b : Hit => a.chunkId ≠ b.chunkId) :=
    fun p q hpq hqp => hpq hqp.symm
  unfold insert_hit
  by_cases hpres : acc.any (fun x => x.chunkId == hh.chunkId)
  · rw [if_pos hpres]
    obtain ⟨x0, hx0mem, hx0beq⟩ := List.any_eq_true.mp hpres
    have hx0id : x0.chunkId = hh.chunkId := by simpa using hx0beq
    have huniq : ∀ a ∈ acc, a.chunkId = hh.chunkId → a = x0 := by
      intro a ha haid
      by_contra hne
      exact (h1.forall hsym ha hx0mem hne) (by rw [haid, hx0id])
    refine ⟨?_, ?_, ?_⟩
    · refine List.Pairwise.map _ ?_ h1
      intro a b hab
      by_cases ha : a.chunkId = hh.chunkId ∧ a.score < hh.score
      · by_cases hb : b.chunkId = hh.chunkId ∧ b.score < hh.score
        · rw [if_pos ha, if_pos hb]
          exact absurd (ha.1.trans hb.1.symm) hab
        · rw [if_pos ha, if_neg hb, ← ha.1]
          exact hab
      · by_cases hb : b.chunkId = hh.chunkId ∧ b.score < hh.score
        · rw [if_neg ha, if_pos hb, ← hb.1]
          exact hab
        · rw [if_neg ha, if_neg hb]
          exact hab
    · intro x hx
      obtain ⟨a, ha, hfa⟩ := List.mem_map.mp hx
      by_cases hca : a.chunkId = hh.chunkId ∧ a.score < hh.score
      · rw [if_pos hca] at hfa
        subst hfa
        refine ⟨List.mem_append_right _ (by simp), ?_⟩
        intro y hy hyid
        rcases List.mem_append.mp hy with hy | hy
        · have hax0 : a = x0 := huniq a ha hca.1
          have hyx : y.score ≤ x0.score :=
            (h2 x0 hx0mem).2 y hy (by rw [hyid, ← hx0id])
          calc y.score ≤ x0.score := hyx
            _ ≤ hh.score := by rw [← hax0]; exact le_of_lt hca.2
        · have hyh : y = hh := by simpa using hy
          rw [hyh]
      · rw [if_neg hca] at hfa
        subst hfa
        refine ⟨List.mem_append_left _ (h2 a ha).1, ?_⟩
        intro y hy hyid
        rcases List.mem_append.mp hy with hy | hy
        · exact (h2 a ha).2 y hy hyid
        · have hyh : y = hh := by simpa using hy
          rw [hyh] at hyid ⊢
          have hid : a.chunkId = hh.chunkId := hyid.symm
          exact le_of_not_lt (fun hlt => hca ⟨hid, hlt⟩)
    · intro y hy
      rcases List.mem_append.mp hy with hy | hy
      · obtain ⟨x, hxmem, hxid⟩ := h3 y hy
        refine ⟨if x.chunkId = hh.chunkId ∧ x.score < hh.score then hh else x,
          List.mem_map.mpr ⟨x, hxmem, rfl⟩, ?_⟩
        by_cases hcx : x.chunkId = hh.chunkId ∧ x.score < hh.score
        · rw [if_pos hcx, ← hcx.1]
          exact hxid
        · rw [if_neg hcx]
          exact hxid
      · have hyh : y = hh := by simpa using hy
        refine ⟨if x0.chunkId = hh.chunkId ∧ x0.score < hh.score then hh else x0,
          List.mem_map.mpr ⟨x0, hx0mem, rfl⟩, ?_⟩
        rw [hyh]
        by_cases hcx : x0.chunkId = hh.chunkId ∧ x0.score < hh.score
        · rw [if_pos hcx]
        · rw [if_neg hcx]
          exact hx0id
  · rw [if_neg hpres]
    have habs : ∀ a ∈ acc, a.chunkId ≠ hh.chunkId := by
      intro a ha heq
      exact hpres (List.any_eq_true.mpr ⟨a, ha, by simpa using heq⟩)
    refine ⟨?_, ?_, ?_⟩
    · rw [List.pairwise_append]
      refine ⟨h1, List.pairwise_singleton _ _, ?_⟩
      intro a ha b hb
      have hbh : b = hh := by simpa using hb
      rw [hbh]
      exact habs a ha
    · intro x hx
      rcases List.mem_append.mp hx with hx | hx
      · refine ⟨List.mem_append_left _ (h2 x hx).1, ?_⟩
        intro y hy hyid
        rcases List.mem_append.mp hy with hy | hy
        · exact (h2 x hx).2 y hy hyid
        · have hyh : y = hh := by simpa using hy
          rw [hyh] at hyid
          exact absurd hyid.symm (habs x hx)
      · have hxh : x = hh := by simpa using hx
        refine ⟨List.mem_append_right _ (by rw [hxh]; simp), ?_⟩
        intro y hy hyid
        rcases List.mem_append.mp hy with hy | hy
        · obtain ⟨x2, hx2, hx2id⟩ := h3 y hy
          rw [hxh] at hyid
          exact absurd (hx2id.trans hyid) (habs x2 hx2)
        · have hyh : y = hh := by simpa using hy
          rw [hyh, hxh]
    · intro y hy
      rcases List.mem_append.mp hy with hy | hy
      · obtain ⟨x, hx, hxid⟩ := h3 y hy
        exact ⟨x, List.mem_append_left _ hx, hxid⟩
      · have hyh : y = hh := by simpa using hy
        exact ⟨hh, List.mem_append_right _ (by simp), by rw [hyh]⟩

theorem best_by_id_inv (hits : List Hit) :
    (best_by_id hits).Pairwise (fun a b => a.chunkId ≠ b.chunkId) ∧
    (∀ x ∈ best_by_id hits, x ∈ hits ∧
      ∀ y ∈ hits, y.chunkId = x.chunkId → y.score ≤ x.score) ∧
    (∀ y ∈ hits, ∃ x ∈ best_by_id hits, x.chunkId = y.chunkId) := by
  suffices hgen : ∀ (rest acc processed : List Hit),
      acc.Pairwise (fun a b => a.chunkId ≠ b.chunkId) →
      (∀ x ∈ acc, x ∈ processed ∧
        ∀ y ∈ processed, y.chunkId = x.chunkId → y.score ≤ x.score) →
      (∀ y ∈ processed, ∃ x ∈ acc, x.chunkId = y.chunkId) →
      ((rest.foldl insert_hit acc).Pairwise (fun a b => a.chunkId ≠ b.chunkId) ∧
       (∀ x ∈ rest.foldl insert_hit acc, x ∈ processed ++ rest ∧
         ∀ y ∈ processed ++ rest, y.chunkId = x.chunkId → y.score ≤ x.score) ∧
       (∀ y ∈ processed ++ rest, ∃ x ∈ rest.foldl insert_hit acc, x.chunkId = y.chunkId)) by
    have h := hgen hits [] [] (by simp) (by simp) (by simp)
    simpa [best_by_id] using h
  intro rest
  induction rest with
  | nil =>
    intro acc processed h1 h2 h3
    simpa using ⟨h1, h2, h3⟩
  | cons hd tl ih =>
    intro acc processed h1 h2 h3
    have hstep := insert_hit_inv acc processed hd h1 h2 h3
    have hrec := ih (insert_hit acc hd) (processed ++ [hd]) hstep.1 hstep.2.1 hstep.2.2
    simpa [List.append_assoc] using hrec

/-- C2.  The merge of `retrieve` collapses hits by chunk identifier
keeping a hit whose score dominates every hit with that identifier (the
maximum observed score, never an average): every merged entry is one of
the input hits, identifiers are pairwise distinct after merging, every
input identifier survives, the final list is the merged set sorted by
score descending truncated to `final_top_k`, and on the spec's example
`[(a, 0.8), (b, 0.7), (a, 0.9), (c, 0.6)]` the merge yields exactly
`a ↦ 0.9, b ↦ 0.7, c ↦ 0.6` with sorted top-2 `[a(0.9), b(0.7)]`. -/
theorem retrieve_merge_spec :
    (∀ hits : List Hit,
      (∀ x ∈ best_by_id hits, x ∈ hits ∧
        ∀ y ∈ hits, y.chunkId = x.chunkId → y.score ≤ x.score) ∧
      (best_by_id hits).Pairwise (fun a b => a.chunkId ≠ b.chunkId) ∧
      (∀ y ∈ hits, ∃ x ∈ best_by_id hits, x.chunkId = y.chunkId)) ∧
    (∀ (hits : List Hit) (k : Nat),
      (top_results hits k).Sorted scoreGe ∧ (top_results hits k).length ≤ k ∧
      top_results hits k = (List.insertionSort scoreGe (best_by_id hits)).take k) ∧
    best_by_id exHits = [⟨"a", 0.9, "t1"⟩, ⟨"b", 0.7, "t2"⟩, ⟨"c", 0.6, "t3"⟩] ∧
    top_results exHits 2 = [⟨"a", 0.9, "t1"⟩, ⟨"b", 0.7, "t2"⟩] := by
  have hmerged : best_by_id exHits
      = [⟨"a", 0.9, "t1"⟩, ⟨"b", 0.7, "t2"⟩, ⟨"c", 0.6, "t3"⟩] := by
    show List.foldl insert_hit [] exHits = _
    unfold exHits
    rw [List.foldl_cons, List.foldl_cons, List.foldl_cons, List.foldl_cons, List.foldl_nil]
    have e1 : insert_hit [] ⟨"a", 0.8, "t1"⟩ = [⟨"a", 0.8, "t1"⟩] := rfl
    have e2 : insert_hit [⟨"a", 0.8, "t1"⟩] ⟨"b", 0.7, "t2"⟩
        = [⟨"a", 0.8, "t1"⟩, ⟨"b", 0.7, "t2"⟩] := rfl
    have e3 : insert_hit [⟨"a", 0.8, "t1"⟩, ⟨"b", 0.7, "t2"⟩] ⟨"a", 0.9, "t1"⟩
        = [⟨"a", 0.9, "t1"⟩, ⟨"b", 0.7, "t2"⟩] := by
      unfold insert_hit
      rw [if_pos (by decide)]
      rw [List.map_cons, List.map_cons, List.map_nil]
      rw [if_pos ⟨rfl, by norm_num⟩]
      rw [if_neg (fun hcon => absurd hcon.1 (by decide))]
    have e4 : insert_hit [⟨"a", 0.9, "t1"⟩, ⟨"b", 0.7, "t2"⟩] ⟨"c", 0.6, "t3"⟩
        = [⟨"a", 0.9, "t1"⟩, ⟨"b", 0.7, "t2"⟩, ⟨"c", 0.6, "t3"⟩] := by
      unfold insert_hit
      rw [if_neg (by decide)]
      rfl
    rw [e1, e2, e3, e4]
  refine ⟨?_, ?_, hmerged, ?_⟩
  · intro hits
    have h := best_by_id_inv hits
    exact ⟨h.2.1, h.1, h.2.2⟩
  · intro hits k
    refine ⟨?_, ?_, rfl⟩
    · exact List.Pairwise.sublist (List.take_sublist _ _)
        (List.sorted_insertionSort scoreGe (best_by_id hits))
    · show ((List.insertionSort scoreGe (best_by_id hits)).take k).length ≤ k
      rw [List.length_take]
      exact Nat.min_le_left _ _
  · show (List.insertionSort scoreGe (best_by_id exHits)).take 2 = _
    rw [hmerged]
    have s1 : List.insertionSort scoreGe [(⟨"c", 0.6, "t3"⟩ : Hit)]
        = [⟨"c", 0.6, "t3"⟩] := rfl
    have s2 : List.insertionSort scoreGe [(⟨"b", 0.7, "t2"⟩ : Hit), ⟨"c", 0.6, "t3"⟩]
        = [⟨"b", 0.7, "t2"⟩, ⟨"c", 0.6, "t3"⟩] := by
      show List.orderedInsert scoreGe ⟨"b", 0.7, "t2"⟩
          (List.insertionSort scoreGe [⟨"c", 0.6, "t3"⟩]) = _
      rw [s1, List.orderedInsert, if_pos (by norm_num [scoreGe])]
    have s3 : List.insertionSort scoreGe
          [(⟨"a", 0.9, "t1"⟩ : Hit), ⟨"b", 0.7, "t2"⟩, ⟨"c", 0.6, "t3"⟩]
        = [⟨"a", 0.9, "t1"⟩, ⟨"b", 0.7, "t2"⟩, ⟨"c", 0.6, "t3"⟩] := by
      show List.orderedInsert scoreGe ⟨"a", 0.9, "t1"⟩
          (List.insertionSort scoreGe [⟨"b", 0.7, "t2"⟩, ⟨"c", 0.6, "t3"⟩]) = _
      rw [s2, List.orderedInsert, if_pos (by norm_num [scoreGe])]
    rw [s3]
    rfl

/-- Witness for C2: the merged entry for identifier `a` is one of the
input hits and its score dominates the other `a`-hit's score. -/
theorem retrieve_merge_spec_witness :
    (⟨"a", 0.9, "t1"⟩ : Hit) ∈ exHits ∧
    (⟨"a", 0.8, "t1"⟩ : Hit).score ≤ (⟨"a", 0.9, "t1"⟩ : Hit).score := by
  have hm := retrieve_merge_spec.2.2.1
  have hmem : (⟨"a", 0.9, "t1"⟩ : Hit) ∈ best_by_id exHits := by
    rw [hm]
    exact List.mem_cons_self _ _
  have hmax := (retrieve_merge_spec.1 exHits).1 ⟨"a", 0.9, "t1"⟩ hmem
  exact ⟨hmax.1, hmax.2 ⟨"a", 0.8, "t1"⟩ (List.mem_cons_self _ _) rfl⟩

/-! ## Answer-normalizer theorems -/

/-- C3.  Whenever the raw generation-service output is unparseable
(no direct parse, no parse after peeling a fenced block, no parse of a
balanced brace span — i.e. `_extract_json` returns nothing), the
normalizer returns the fallback verdict: covered `Unknown`, confidence
`0`, empty citations and caveats, and the `fallback` diagnostic flag
set.  In particular the input `"This is not JSON at all"` is
unparseable for any decoder that rejects it directly, since it carries
no fence and no brace. -/
theorem normalizer_unparseable_fallback :
    (∀ (parse : String → Option JVal) (question raw : String) (chunks : List RChunk),
      extract_json parse raw = none →
      (ask_normalize parse question raw chunks).covered = "Unknown" ∧
      (ask_normalize parse question raw chunks).confidence = 0 ∧
      (ask_normalize parse question raw chunks).citations = [] ∧
      (ask_normalize parse question raw chunks).caveats = [] ∧
      (ask_normalize parse question raw chunks).metaFallback = true) ∧
    (∀ parse : String → Option JVal,
      parse ("This is not JSON at all") = none →
      extract_json parse ("This is not JSON at all") = none) := by
  constructor
  · intro parse question raw chunks hnone
    by_cases hlen : 20 < strLen (pyStrip raw)
    · simp only [ask_normalize, hnone, if_pos hlen]
      exact ⟨rfl, rfl, rfl, rfl, rfl⟩
    · simp only [ask_normalize, hnone, if_neg hlen]
      exact ⟨rfl, rfl, rfl, rfl, rfl⟩
  · intro parse hp
    have hc : cleanedText ("This is not JSON at all") = "This is not JSON at all" := by decide
    unfold extract_json
    rw [hc, hp, show brace_span ("This is not JSON at all") = none from by decide]

/-- Witness for C3: a decoder rejecting everything, applied to the
spec's example text. -/
theorem normalizer_unparseable_fallback_witness :
    extract_json (fun _ => none) ("This is not JSON at all") = none ∧
    (ask_normalize (fun _ => none) ("q") ("This is not JSON at all") []).covered = "Unknown" ∧
    (ask_normalize (fun _ => none) ("q") ("This is not JSON at all") []).confidence = 0 ∧
    (ask_normalize (fun _ => none) ("q") ("This is not JSON at all") []).citations = [] ∧
    (ask_normalize (fun _ => none) ("q") ("This is not JSON at all") []).caveats = [] ∧
    (ask_normalize (fun _ => none) ("q") ("This is not JSON at all") []).metaFallback = true := by
  have he : extract_json (fun _ => none) ("This is not JSON at all") = none :=
    normalizer_unparseable_fallback.2 (fun _ => none) rfl
  have h := normalizer_unparseable_fallback.1 (fun _ => none) ("q")
    ("This is not JSON at all") [] he
  exact ⟨he, h.1, h.2.1, h.2.2.1, h.2.2.2.1, h.2.2.2.2⟩

/-- C9 counterexample.  `AnswerChain._normalise_llm_output` (one of the
two cited normalization sites) does not behave as claimed: the
confidence `"not-a-number"` is stored as `0.5` (not `0.0`), and the
confidence `5` is stored as `5.0` — no clamping to `[0, 1]` is
applied. -/
theorem chain_confidence_counterexample :
    chain_confidence (JVal.str ("not-a-number")) = 1/2 ∧
    chain_confidence (JVal.str ("not-a-number")) ≠ 0 ∧
    chain_confidence (JVal.num 5) = 5 ∧
    ¬ chain_confidence (JVal.num 5) ≤ 1 := by
  have hp : parse_py_float ("not-a-number") = none := by decide
  have h1 : chain_confidence (JVal.str ("not-a-number")) = 1/2 := by
    show (match parse_py_float ("not-a-number") with
          | some x => x
          | none => 1/2 : ℚ) = (1/2 : ℚ)
    rw [hp]
  have h3 : chain_confidence (JVal.num 5) = 5 := rfl
  refine ⟨h1, ?_, h3, ?_⟩
  · rw [h1]; norm_num
  · rw [h3]; norm_num

/-- C9 amended.  The claim holds for `CoverageAgent._validate_response`
(coerce to float, default `0.0` on coercion failure, clamp to `[0, 1]`;
`5 ↦ 1.0` and `"not-a-number" ↦ 0.0`), but not for
`AnswerChain._normalise_llm_output`, which defaults to `0.5` on string
coercion failure and on non-numbers and applies no clamp. -/
theorem validate_confidence_amended :
    (∀ v : JVal,
      0 ≤ validate_confidence v ∧ validate_confidence v ≤ 1 ∧
      (py_float v = none → validate_confidence v = 0) ∧
      (∀ x, py_float v = some x → validate_confidence v = max 0 (min 1 x))) ∧
    validate_confidence (JVal.num 5) = 1 ∧
    validate_confidence (JVal.str ("not-a-number")) = 0 := by
  refine ⟨?_, ?_, ?_⟩
  · intro v
    unfold validate_confidence
    cases hpv : py_float v with
    | none =>
      exact ⟨le_refl 0, by norm_num, fun _ => rfl, fun x hx => Option.noConfusion hx⟩
    | some x0 =>
      refine ⟨le_max_left 0 _, max_le (by norm_num) (min_le_left 1 x0), ?_, ?_⟩
      · intro h0; exact Option.noConfusion h0
      · intro x hx
        have hx0 : x0 = x := by injection hx
        rw [hx0]
  · show max 0 (min 1 (5 : ℚ)) = 1
    norm_num
  · show (match py_float (JVal.str ("not-a-number")) with
        | some x => max 0 (min 1 x)
        | none => 0 : ℚ) = (0 : ℚ)
    rw [show py_float (JVal.str ("not-a-number")) = none from by decide]

/-- Witness for the amended C9: a `None` confidence fails coercion and
is stored as `0`. -/
theorem validate_confidence_amended_witness :
    py_float JVal.null = none ∧ validate_confidence JVal.null = 0 :=
  ⟨rfl, (validate_confidence_amended.1 JVal.null).2.2.1 rfl⟩

theorem backfill_one_id (chunks : List RChunk) (question : String) (cit : Citation)
    (h : pyStrip cit.quote ≠ "") : backfill_one chunks question cit = cit := by
  unfold backfill_one
  rw [if_pos h]

theorem mem_backfill_of_quote (cits : List Citation) (chunks : List RChunk)
    (question : String) (c : Citation) (hc : c ∈ cits) (hq : pyStrip c.quote ≠ "") :
    c ∈ backfill_citations cits chunks question := by
  unfold backfill_citations
  have hne : cits.isEmpty = false := by
    rw [List.isEmpty_eq_false]
    exact List.ne_nil_of_mem hc
  rw [if_neg (by rw [hne]; simp)]
  exact List.mem_filter.mpr
    ⟨List.mem_map.mpr ⟨c, hc, backfill_one_id chunks question c hq⟩, decide_eq_true hq⟩

/-- C6 counterexample.  A citation with an empty quote whose file name
matches no retrieved chunk is simply removed — even though a
highest-ranked retrieved chunk with a perfectly usable sentence is
available.  `CoverageAgent._backfill_citations` has no
last-resort step (that step exists only in `AnswerChain`, whose
matching is by exact file-name/page equality rather than
substring/page-range). -/
theorem citation_backfill_counterexample :
    backfill_citations [cxCit] [cxChunk] cxQuestion = [] ∧
    pyStrip (best_sentence cxChunk.text cxQuestion) ≠ "" := by
  decide

/-- C6 amended.  In `CoverageAgent._backfill_citations`, a citation
whose quote is empty after stripping is backfilled from the first
chunk matching exactly (file-name substring and page within the
chunk's page range) when that chunk yields a usable sentence; when the
exact match's selected sentence is blank, or when there is no exact
match at all, the quote is taken instead from the first loose
(file-name substring) match; with an exact match whose sentence is
blank and no loose match the blank selection is kept (and the citation
is then removed by the final filter); with no exact and no loose match
the citation is left untouched and removed — there is no last-resort
fallback to the highest-ranked chunk.  Citations with non-empty quotes
pass through, and every citation in the result has a non-empty
quote. -/
theorem citation_backfill_amended (cits : List Citation) (chunks : List RChunk)
    (question : String) :
    (∀ c ∈ backfill_citations cits chunks question, pyStrip c.quote ≠ "") ∧
    (∀ c ∈ cits, pyStrip c.quote ≠ "" →
      backfill_one chunks question c = c ∧
      c ∈ backfill_citations cits chunks question) ∧
    (∀ c ∈ cits, pyStrip c.quote = "" →
      (∀ ch, chunks.find? (exact_match c) = some ch →
        pyStrip (best_sentence ch.text question) ≠ "" →
        backfill_one chunks question c
          = ⟨c.file, c.page, c.sectionTitle, best_sentence ch.text question⟩) ∧
      (∀ ch ch2, chunks.find? (exact_match c) = some ch →
        pyStrip (best_sentence ch.text question) = "" →
        chunks.find? (loose_match c) = some ch2 →
        backfill_one chunks question c
          = ⟨c.file, c.page, c.sectionTitle, best_sentence ch2.text question⟩) ∧
      (∀ ch, chunks.find? (exact_match c) = some ch →
        pyStrip (best_sentence ch.text question) = "" →
        chunks.find? (loose_match c) = none →
        backfill_one chunks question c
          = ⟨c.file, c.page, c.sectionTitle, best_sentence ch.text question⟩) ∧
      (∀ ch2, chunks.find? (exact_match c) = none →
        chunks.find? (loose_match c) = some ch2 →
        backfill_one chunks question c
          = ⟨c.file, c.page, c.sectionTitle, best_sentence ch2.text question⟩) ∧
      (chunks.find? (exact_match c) = none → chunks.find? (loose_match c) = none →
        backfill_one chunks question c = c ∧
        c ∉ backfill_citations cits chunks question)) := by
  have hA : ∀ c ∈ backfill_citations cits chunks question, pyStrip c.quote ≠ "" := by
    intro c hc
    unfold backfill_citations at hc
    exact of_decide_eq_true (List.mem_filter.mp hc).2
  refine ⟨hA, ?_, ?_⟩
  · intro c hc hq
    exact ⟨backfill_one_id chunks question c hq,
      mem_backfill_of_quote cits chunks question c hc hq⟩
  · intro c _ hq
    have hnq : ¬ pyStrip c.quote ≠ "" := by rw [hq]; simp
    refine ⟨?_, ?_, ?_, ?_, ?_⟩
    · intro ch hch hbs
      simp only [backfill_one, if_neg hnq, hch]
      rw [if_pos hbs]
    · intro ch ch2 hch hbs hlo
      have hnb : ¬ pyStrip (best_sentence ch.text question) ≠ "" := by rw [hbs]; simp
      simp only [backfill_one, if_neg hnq, hch]
      rw [if_neg hnb]
      simp only [hlo]
    · intro ch hch hbs hlo
      have hnb : ¬ pyStrip (best_sentence ch.text question) ≠ "" := by rw [hbs]; simp
      simp only [backfill_one, if_neg hnq, hch]
      rw [if_neg hnb]
      simp only [hlo]
    · intro ch2 hex hlo
      simp only [backfill_one, if_neg hnq, hex, hlo]
    · intro hex hlo
      constructor
      · simp only [backfill_one, if_neg hnq, hex, hlo]
      · intro hmem
        exact hA c hmem hq

/-- Witness for the amended C6: a concrete empty-quote citation is
backfilled from the exactly matching chunk's best sentence. -/
theorem citation_backfill_amended_witness :
    pyStrip (⟨"policy.pdf", 3, "S", ""⟩ : Citation).quote = "" ∧
    [cxChunk].find? (exact_match ⟨"policy.pdf", 3, "S", ""⟩) = some cxChunk ∧
    pyStrip (best_sentence cxChunk.text cxQuestion) ≠ "" ∧
    backfill_one [cxChunk] cxQuestion ⟨"policy.pdf", 3, "S", ""⟩
      = ⟨"policy.pdf", 3, "S", best_sentence cxChunk.text cxQuestion⟩ := by
  have h := (citation_backfill_amended [⟨"policy.pdf", 3, "S", ""⟩] [cxChunk] cxQuestion).2.2
    ⟨"policy.pdf", 3, "S", ""⟩ (List.mem_cons_self _ _) (by decide)
  exact ⟨by decide, by decide, by decide, h.1 cxChunk (by decide) (by decide)⟩

/-- C10.  The backfill step replaces only the `citations` field of the
verdict — covered, confidence, explanation, caveats and the diagnostic
fallback flag pass through — and a citation whose quote is already
non-empty after stripping is not modified (the per-citation backfill
returns it unchanged, with all four fields intact) and survives into
the result. -/
theorem backfill_frame (v : Verdict) (chunks : List RChunk) (question : String) :
    (apply_backfill v chunks question).covered = v.covered ∧
    (apply_backfill v chunks question).confidence = v.confidence ∧
    (apply_backfill v chunks question).explanation = v.explanation ∧
    (apply_backfill v chunks question).caveats = v.caveats ∧
    (apply_backfill v chunks question).metaFallback = v.metaFallback ∧
    (∀ c ∈ v.citations, pyStrip c.quote ≠ "" →
      backfill_one chunks question c = c ∧
      c ∈ (apply_backfill v chunks question).citations) := by
  refine ⟨rfl, rfl, rfl, rfl, rfl, ?_⟩
  intro c hc hq
  exact ⟨backfill_one_id chunks question c hq,
    mem_backfill_of_quote v.citations chunks question c hc hq⟩

/-- Witness for C10: a verdict with one already-quoted citation keeps
it untouched through the backfill step. -/
theorem backfill_frame_witness :
    backfill_one [cxChunk] cxQuestion cxCitFull = cxCitFull ∧
    cxCitFull ∈ (apply_backfill ⟨"Yes", 1, "ok", [cxCitFull], [], false⟩
      [cxChunk] cxQuestion).citations :=
  (backfill_frame ⟨"Yes", 1, "ok", [cxCitFull], [], false⟩ [cxChunk] cxQuestion).2.2.2.2.2
    cxCitFull (List.mem_cons_self _ _) (by decide)

/-- Witness for C1: the oversized single-sentence chunk of a concrete
document satisfies the exceptional disjunct of the bound. -/
theorem chunk_document_token_bound_witness :
    (⟨3, "d", 200, 3, 4, 6, 7⟩ : SChunk) ∈ chunk_document tok2 sents2 100 20 ∧
    ((⟨3, "d", 200, 3, 4, 6, 7⟩ : SChunk).tokenCount ≤ 100 ∨
      ((⟨3, "d", 200, 3, 4, 6, 7⟩ : SChunk).endSent
          = (⟨3, "d", 200, 3, 4, 6, 7⟩ : SChunk).startSent + 1 ∧
        100 < (⟨3, "d", 200, 3, 4, 6, 7⟩ : SChunk).tokenCount ∧
        (⟨3, "d", 200, 3, 4, 6, 7⟩ : SChunk).text
          = sents2.getD (⟨3, "d", 200, 3, 4, 6, 7⟩ : SChunk).startSent "" ∧
        (⟨3, "d", 200, 3, 4, 6, 7⟩ : SChunk).tokenCount
          = tok2 (sents2.getD (⟨3, "d", 200, 3, 4, 6, 7⟩ : SChunk).startSent ""))) :=
  ⟨by decide,
   chunk_document_token_bound tok2 sents2 100 20 ⟨3, "d", 200, 3, 4, 6, 7⟩ (by decide)⟩
